import Mathlib

/-!
Shallow embedding of the timetable bot (`TT.py`): week calendar, grid parser
(`load_timetable`), free-text query interpretation (`parse_date_input`, the
weekday-name fallback in `handle_message`, `parse_section`) and the schedule
resolver (the second half of `handle_message`).

Strings are modelled as `List Char` (the inputs are ASCII, so the ASCII
`Char.toLower`/`Char.toUpper`/whitespace predicates coincide with Python's
`str.lower`/`str.upper`/`str.strip`/`\s` on them).  Calendar dates are
modelled as `Int` day numbers with day 0 = 2026-01-01, via the proleptic
Gregorian ordinal (the arithmetic Python's `datetime.date` uses); under this
encoding Python's `datetime.weekday()` (Monday = 0) is `(d + 3) % 7`.
-/

abbrev Str := List Char

/-- Whitespace characters of Python's `str.strip` / regex `\s` (ASCII range). -/
def isWsChar (c : Char) : Bool :=
  c = ' ' || c = '\t' || c = '\n' || c = '\r' || c = '\x0b' || c = '\x0c'

/-- Python `str.lower()` (ASCII). -/
def lowerStr (s : Str) : Str := s.map Char.toLower

/-- Python `str.upper()` (ASCII). -/
def upperStr (s : Str) : Str := s.map Char.toUpper

/-- Python `str.strip()`:  drop whitespace from both ends. -/
def strip (s : Str) : Str :=
  ((s.dropWhile isWsChar).reverse.dropWhile isWsChar).reverse

/-- Python `str.capitalize()`: first character upper-cased, the rest lower-cased. -/
def capitalize : Str → Str
  | [] => []
  | c :: cs => Char.toUpper c :: cs.map Char.toLower

/-- Test whether `pat` is a prefix of `s` (Python `str.startswith`). -/
def seqStarts : Str → Str → Bool
  | [], _ => true
  | _ :: _, [] => false
  | p :: ps, c :: cs => p = c && seqStarts ps cs

/-- Python's substring test `pat in s`. -/
def containsSeq (pat : Str) : Str → Bool
  | [] => seqStarts pat []
  | c :: cs => seqStarts pat (c :: cs) || containsSeq pat cs

/-- Python `str.split('/')`. -/
def splitOnSlash : Str → List Str
  | [] => [[]]
  | c :: cs =>
    if c = '/' then [] :: splitOnSlash cs
    else
      match splitOnSlash cs with
      | [] => [[c]]
      | p :: ps => (c :: p) :: ps

/-- First-match lookup in an association list (Python `dict` access). -/
def lookupA {κ α : Type} [DecidableEq κ] (k : κ) : List (κ × α) → Option α
  | [] => none
  | (k', v) :: rest => if k' = k then some v else lookupA k rest

/-- Update/insert in an association list, keeping the key's position
(Python `dict` item assignment). -/
def setA {κ α : Type} [DecidableEq κ] (k : κ) (v : α) : List (κ × α) → List (κ × α)
  | [] => [(k, v)]
  | (k', v') :: rest => if k' = k then (k', v) :: rest else (k', v') :: setA k v rest

/-! ### Calendar arithmetic (proleptic Gregorian, as in Python's `datetime`) -/

def isLeapYear (y : Nat) : Bool := (y % 4 = 0 && y % 100 ≠ 0) || y % 400 = 0

def monthLen (y m : Nat) : Nat :=
  if m = 2 then (if isLeapYear y then 29 else 28)
  else if m = 4 || m = 6 || m = 9 || m = 11 then 30
  else 31

def daysBeforeMonth (y m : Nat) : Nat :=
  (List.range (m - 1)).foldl (fun acc i => acc + monthLen y (i + 1)) 0

/-- Python `date.toordinal()`: day count with 0001-01-01 = 1. -/
def toOrdinal (y m d : Nat) : Nat :=
  365 * (y - 1) + (y - 1) / 4 - (y - 1) / 100 + (y - 1) / 400 + daysBeforeMonth y m + d

/-- Day number of calendar date `y-m-d` with 2026-01-01 as day 0. -/
def mkDate (y m d : Nat) : Int :=
  (toOrdinal y m d : Int) - (toOrdinal 2026 1 1 : Int)

/-- Python `datetime.weekday()` (Monday = 0) under the day-number encoding;
`%` on `Int` is euclidean `emod`, matching Python's `%`. -/
def pyWeekday (d : Int) : Int := (d + 3) % 7

/-- Validity check performed by `datetime.strptime(.., "%Y-%m-%d")`
(year ≥ 1, month 1..12, day fitting the month). -/
def validDate (y m d : Nat) : Bool :=
  1 ≤ y && 1 ≤ m && m ≤ 12 && 1 ≤ d && d ≤ monthLen y m

/-! ### Week calendar -/

/-- `WEEK_START_DATES`: week number → start date (`TT.py` lines 25-32). -/
def WEEK_START_DATES : List (Int × Int) :=
  [(-6, mkDate 2026 2 16), (-7, mkDate 2026 2 23), (-8, mkDate 2026 3 2),
   (-9, mkDate 2026 3 9), (-10, mkDate 2026 3 16), (-11, mkDate 2026 3 23)]

def listMin : List Int → Int
  | [] => 0
  | x :: xs => xs.foldl min x

def listMax : List Int → Int
  | [] => 0
  | x :: xs => xs.foldl max x

/-- `FIRST_DATE = min(WEEK_START_DATES.values())` (`TT.py` line 34). -/
def FIRST_DATE : Int := listMin (WEEK_START_DATES.map Prod.snd)

/-- `LAST_DATE = max(WEEK_START_DATES.values()) + 6 days` (`TT.py` line 35). -/
def LAST_DATE : Int := listMax (WEEK_START_DATES.map Prod.snd) + 6

/-- The `f"WEEK -{abs(w_num)}"` key formatting of `get_week_key_for_date`. -/
def weekKeyStr (w : Int) : Str := ("WEEK -").data ++ (Nat.repr w.natAbs).data

/-- Scan of `WEEK_START_DATES.items()` performed by `get_week_key_for_date`. -/
def weekLookup (d : Int) : List (Int × Int) → Option Str
  | [] => none
  | (w, s) :: rest =>
    if s ≤ d ∧ d ≤ s + 6 then some (weekKeyStr w) else weekLookup d rest

/-- `get_week_key_for_date` (`TT.py` lines 127-133). -/
def get_week_key_for_date (d : Int) : Option Str := weekLookup d WEEK_START_DATES

/-! ### Grid parser (`load_timetable`, `TT.py` lines 38-97)

A grid is a list of rows of string cells; the loop reads cells 0..9 of each
row (stripped).  Rows are assumed to provide those columns (a narrower sheet
makes `pd.read_excel`/`iloc` raise inside the `try`, which is the load-failure
case modelled by `load_timetable none`). -/

abbrev Row := List Str
abbrev Grid := List Row

/-- Stripped cell `j` of a row, as in `str(df.iloc[i, j]).strip()`. -/
def cellAt (r : Row) (j : Nat) : Str := strip (r.getD j [])

/-- One day's entry: Python stores a dict that can hold a `"special"` key and
section keys `"1"`..`"6"` (each a slot-index → subject-list dict). -/
structure DayData where
  special : Option Str
  sections : List (Str × List (Nat × List Str))
deriving DecidableEq, Repr

def emptyDayData : DayData := ⟨none, []⟩

abbrev DayMap := List (Str × DayData)
abbrev Timetable := List (Str × DayMap)

def specialVocab : List Str := [("HOLI").data, ("ID-UL-FITR").data, ("END TERM EXAM").data]

/-- First slot cell whose upper-cased, stripped text is a special label;
returns the stripped cell (`TT.py` lines 69-74). -/
def findSpecial : List Str → Option Str
  | [] => none
  | s :: rest =>
    if strip (upperStr s) ∈ specialVocab then some (strip s) else findSpecial rest

/-- The `S?` part of the entry regex: drop one leading `S` if present. -/
def dropS : Str → Str
  | [] => []
  | c :: r => if c = 'S' then r else c :: r

/-- The entry regex `^([A-Z]+)\(S?(\d+)\)$` of `TT.py` line 85: uppercase
letters, then a parenthesized digit run with optional `S` prefix, anchored at
both ends.  Returns (subject letters, digit run). -/
def entryMatch (e : Str) : Option (Str × Str) :=
  let subj := e.takeWhile Char.isUpper
  let rest := e.dropWhile Char.isUpper
  if subj = [] then none
  else
    match rest with
    | [] => none
    | c :: r2 =>
      if c = '(' then
        let r3 := dropS r2
        let ds := r3.takeWhile Char.isDigit
        let r4 := r3.dropWhile Char.isDigit
        if ds ≠ [] ∧ r4 = [')'] then some (subj, ds) else none
      else none

def validSecStrs : List Str := [("1").data, ("2").data, ("3").data, ("4").data, ("5").data, ("6").data]

/-- `re.split(r'\s*/\s*', content)` followed by stripping each piece and
dropping blanks (`TT.py` line 83); splitting on bare `/` and stripping each
piece is the same function, since the per-piece strip subsumes the
whitespace absorbed by the separator pattern. -/
def splitEntries (cell : Str) : List Str :=
  ((splitOnSlash cell).map strip).filter (fun e => e ≠ [])

/-- Processing of one entry of a slot cell (`TT.py` lines 85-91). -/
def applyEntry (i : Nat) (secs : List (Str × List (Nat × List Str))) (e : Str) :
    List (Str × List (Nat × List Str)) :=
  match entryMatch e with
  | none => secs
  | some (subj, sec) =>
    if sec ∈ validSecStrs then
      let sd := (lookupA sec secs).getD []
      setA sec (setA i ((lookupA i sd).getD [] ++ [subj]) sd) secs
    else secs

/-- Processing of one slot cell (`TT.py` lines 80-91): blank cells are
skipped, otherwise each `/`-entry is applied in order. -/
def applyCell (secs : List (Str × List (Nat × List Str))) (i : Nat) (cell : Str) :
    List (Str × List (Nat × List Str)) :=
  if strip cell = [] then secs else (splitEntries cell).foldl (applyEntry i) secs

def applySlotsAux (secs : List (Str × List (Nat × List Str))) (i : Nat) :
    List Str → List (Str × List (Nat × List Str))
  | [] => secs
  | c :: rest => applySlotsAux (applyCell secs i c) (i + 1) rest

/-- `for slot_idx, content in enumerate(slots, 1)` over the four slot cells. -/
def applySlots (secs : List (Str × List (Nat × List Str))) (slots : List Str) :
    List (Str × List (Nat × List Str)) :=
  applySlotsAux secs 1 slots

def weekdayNames : List Str :=
  [("Monday").data, ("Tuesday").data, ("Wednesday").data, ("Thursday").data,
   ("Friday").data, ("Saturday").data, ("Sunday").data]

/-- Classification of a grid row, mirroring the branch order of the loop in
`load_timetable`: week-header test on cell 0, then blank day-name test on
cell 2, then the current-week and weekday-name guards. -/
inductive RowKind where
  | week (key : Str)
  | dayRow (week day : Str) (slots : List Str)
  | skip
deriving DecidableEq

def slotCells (r : Row) : List Str := [cellAt r 3, cellAt r 4, cellAt r 5, cellAt r 6]

def classifyRow (cw : Option Str) (r : Row) : RowKind :=
  if seqStarts (("WEEK").data) (cellAt r 0) then .week (cellAt r 0)
  else if cellAt r 2 = [] then .skip
  else
    let day := capitalize (cellAt r 2)
    match cw with
    | none => .skip
    | some w => if day ∈ weekdayNames then .dayRow w day (slotCells r) else .skip

/-- The day entry written by a valid day row: the existing entry for that
(week, weekday) — fetched via `setdefault` — either gets the special label
recorded or has its slot cells parsed (`TT.py` lines 66-91). -/
def dayDD (tt : Timetable) (w day : Str) (slots : List Str) : DayData :=
  let dd := (lookupA day ((lookupA w tt).getD [])).getD emptyDayData
  match findSpecial slots with
  | some lbl => { dd with special := some lbl }
  | none => { dd with sections := applySlots dd.sections slots }

/-- Effect of a valid day row (`TT.py` lines 65-91): fetch (or create) the
day's dict, then either record the special label or parse the slot cells. -/
def applyDayRow (tt : Timetable) (w day : Str) (slots : List Str) : Timetable :=
  setA w (setA day (dayDD tt w day slots) ((lookupA w tt).getD [])) tt

structure PState where
  tt : Timetable
  cw : Option Str

def parseRow (st : PState) (r : Row) : PState :=
  match classifyRow st.cw r with
  | .week k => ⟨setA k [] st.tt, some k⟩
  | .dayRow w day slots => ⟨applyDayRow st.tt w day slots, st.cw⟩
  | .skip => st

/-- The row loop of `load_timetable` over a successfully read grid. -/
def parseGrid (g : Grid) : Timetable :=
  (g.foldl parseRow ⟨[], none⟩).tt

/-- `load_timetable` (`TT.py` lines 38-97): `none` models a grid source that
cannot be read (the `except` branch), which yields the empty timetable. -/
def load_timetable : Option Grid → Timetable
  | none => []
  | some g => parseGrid g

/-! ### Slot times, venues, resolver (`TT.py` lines 102-124 and 235-296) -/

def slotTimesA : List (Nat × Str) :=
  [(1, ("10:30 – 12:00 hrs").data), (2, ("12:15 – 13:45 hrs").data),
   (3, ("14:45 – 16:15 hrs").data), (4, ("16:30 – 18:00 hrs").data)]

def slotTimesB : List (Nat × Str) :=
  [(1, ("10:00 – 11:30 hrs").data), (2, ("11:45 – 13:15 hrs").data),
   (3, ("14:15 – 15:45 hrs").data), (4, ("16:30 – 18:00 hrs").data)]

def VENUES : List (Str × Str) :=
  [(("1").data, ("Room-101").data), (("2").data, ("Room-102").data),
   (("3").data, ("Room-103").data), (("4").data, ("Room-G07").data),
   (("5").data, ("Room-201").data), (("6").data, ("Room-G02").data)]

/-- `times.get(slot, "??:?? – ??:??")` for the section's group. -/
def timeFor (groupA : Bool) (i : Nat) : Str :=
  (lookupA i (if groupA then slotTimesA else slotTimesB)).getD (("??:?? – ??:??").data)

/-- Weekday name of a date (`target_date.strftime("%A")`). -/
def weekdayName (d : Int) : Str := weekdayNames.getD (pyWeekday d).toNat []

inductive ScheduleResult where
  | tooEarly
  | tooLate
  | noData
  | specialDay (label : Str)
  | regularDay (sec : Str) (venue : Str) (slots : List (Str × List Str))
deriving DecidableEq

/-- The date-to-answer part of `handle_message` (`TT.py` lines 235-296):
range checks, week lookup, special-day check, then the per-slot schedule.
A slot's empty subject list is what the bot renders as "Free". -/
def resolve (tt : Timetable) (d : Int) (sec : Str) : ScheduleResult :=
  if d < FIRST_DATE then .tooEarly
  else if LAST_DATE < d then .tooLate
  else
    match get_week_key_for_date d with
    | none => .noData
    | some wk =>
      match lookupA wk tt with
      | none => .noData
      | some dm =>
        let dd := (lookupA (weekdayName d) dm).getD emptyDayData
        match dd.special with
        | some lbl => .specialDay lbl
        | none =>
          let sd := (lookupA sec dd.sections).getD []
          let grpA := sec ∈ [("1").data, ("3").data, ("5").data]
          .regularDay sec ((lookupA sec VENUES).getD (("—").data))
            ([1, 2, 3, 4].map fun i => (timeFor grpA i, (lookupA i sd).getD []))

/-- An OutOfRange outcome (either bound). -/
def isOOR (r : ScheduleResult) : Prop := r = .tooEarly ∨ r = .tooLate

/-! ### Query interpretation (`TT.py` lines 135-160 and 188-233) -/

/-- Match of `\d{4}-\d{2}-\d{2}` anchored at the head of the list. -/
def isoAt : Str → Option (Nat × Nat × Nat)
  | a :: b :: c :: d :: '-' :: e :: f :: '-' :: g :: h :: _ =>
    if a.isDigit && b.isDigit && c.isDigit && d.isDigit && e.isDigit && f.isDigit
        && g.isDigit && h.isDigit then
      some (1000 * (a.toNat - 48) + 100 * (b.toNat - 48) + 10 * (c.toNat - 48) + (d.toNat - 48),
            10 * (e.toNat - 48) + (f.toNat - 48),
            10 * (g.toNat - 48) + (h.toNat - 48))
    else none
  | _ => none

/-- `re.search(r'(\d{4}-\d{2}-\d{2})', text)` followed by `strptime`: the
leftmost pattern occurrence decides; an invalid calendar value there makes
the whole strategy fail (`TT.py` lines 145-150). -/
def isoSearch : Str → Option Int
  | [] => none
  | c :: cs =>
    match isoAt (c :: cs) with
    | some (y, m, d) => if validDate y m d then some (mkDate y m d) else none
    | none => isoSearch cs

/-- `parse_date_input` (`TT.py` lines 135-152), on the day-number encoding. -/
def parse_date_input (text : Str) (now : Int) : Option Int :=
  let t := strip (lowerStr text)
  if containsSeq (("today").data) t then some now
  else if containsSeq (("tomorrow").data) t then some (now + 1)
  else if containsSeq (("yesterday").data) t then some (now - 1)
  else isoSearch t

/-- The `day_map` dict of `handle_message` (`TT.py` lines 198-206), in
insertion order. -/
def day_map : List (Str × Int) :=
  [(("monday").data, 0), (("mon").data, 0),
   (("tuesday").data, 1), (("tue").data, 1),
   (("wednesday").data, 2), (("wed").data, 2),
   (("thursday").data, 3), (("thu").data, 3), (("thur").data, 3),
   (("friday").data, 4), (("fri").data, 4),
   (("saturday").data, 5), (("sat").data, 5),
   (("sunday").data, 6), (("sun").data, 6)]

/-- The weekday-name fallback of `handle_message` (`TT.py` lines 197-214):
first `day_map` entry whose name occurs in the lowered text wins;
`days_to_add = (offset - now.weekday()) % 7`, bumped to 7 when it is 0 and
the name is not `"today"`/`"tomorrow"` (no `day_map` name is). -/
def weekdayFallback (text : Str) (now : Int) : Option Int :=
  day_map.findSome? fun p =>
    if containsSeq p.1 (lowerStr text) then
      let k := (p.2 - pyWeekday now) % 7
      let k2 := if k = 0 ∧ p.1 ∉ [("today").data, ("tomorrow").data] then 7 else k
      some (now + k2)
    else none

/-- Date resolution of `handle_message`: `parse_date_input`, then the
weekday-name fallback. -/
def resolveDate (text : Str) (now : Int) : Option Int :=
  match parse_date_input text now with
  | some d => some d
  | none => weekdayFallback text now

/-- Case-insensitive prefix match against a lowercase token; returns the
remainder on success. -/
def ciPrefixRest : Str → Str → Option Str
  | [], s => some s
  | _ :: _, [] => none
  | p :: ps, c :: cs => if Char.toLower c = p then ciPrefixRest ps cs else none

/-- Regex tail `\s*(\d)`: skip a whitespace run, then capture a digit. -/
def skipWsDigit : Str → Option Char
  | [] => none
  | c :: cs => if c.isDigit then some c else if isWsChar c then skipWsDigit cs else none

def tryTok (tok s : Str) : Option Char := (ciPrefixRest tok s).bind skipWsDigit

/-- Attempt of `(?:s|sec|section)\s*(\d)` at one position, alternatives in
regex order. -/
def tryAt (s : Str) : Option Char :=
  (tryTok (("s").data) s).orElse fun _ =>
    (tryTok (("sec").data) s).orElse fun _ => tryTok (("section").data) s

/-- `re.search` scan for the section pattern: leftmost position wins. -/
def searchSec : Str → Option Char
  | [] => none
  | c :: cs =>
    match tryAt (c :: cs) with
    | some d => some d
    | none => searchSec cs

def secDigits : List Char := ['1', '2', '3', '4', '5', '6']

/-- `parse_section` (`TT.py` lines 154-160): the captured digit of the
leftmost match, accepted only when it is in `"123456"`. -/
def parse_section (t : Str) : Option Char :=
  match searchSec t with
  | some d => if d ∈ secDigits then some d else none
  | none => none

inductive Interp where
  | query (d : Int) (sec : Str)
  | needDate
  | needSection
deriving DecidableEq

/-- The interpretation half of `handle_message` (`TT.py` lines 188-233): the
incoming text is stripped, the date is resolved first (else the date
clarification), then the section (else the section clarification). -/
def interpret (raw : Str) (now : Int) : Interp :=
  let text := strip raw
  match resolveDate text now with
  | none => .needDate
  | some d =>
    match parse_section text with
    | none => .needSection
    | some c => .query d [c]

/-! ### Claim-side definitions (used to state claims, not taken from code) -/

/-- Flat list of (section, subject) contributions of one slot cell, in
encounter order. -/
def cellContribs (cell : Str) : List (Str × Str) :=
  (splitEntries cell).filterMap fun e =>
    match entryMatch e with
    | some (subj, sec) => if sec ∈ validSecStrs then some (sec, subj) else none
    | none => none

/-- Contributions of a cell to one section's list. -/
def contribsFor (cell : Str) (s : Str) : List Str :=
  (cellContribs cell).filterMap fun p => if p.1 = s then some p.2 else none

/-- Subject list recorded for section `s`, slot `i`. -/
def lookupSlot (secs : List (Str × List (Nat × List Str))) (s : Str) (i : Nat) : List Str :=
  (lookupA i ((lookupA s secs).getD [])).getD []

/-- Entry acceptance as the code computes it: regex match plus the
`sec in ["1",..,"6"]` filter. -/
def entryAccept (e : Str) : Option (Str × Str) :=
  match entryMatch e with
  | some (subj, sec) => if sec ∈ validSecStrs then some (subj, sec) else none
  | none => none

/-- Modelled from the spec: the entry pattern as the spec words it — LETTERS,
then a parenthesized designator of an optional `S` and ONE digit — accepted
when that digit is in 1..6. -/
def specEntryAccept (e : Str) : Option (Str × Str) :=
  let subj := e.takeWhile Char.isUpper
  let rest := e.dropWhile Char.isUpper
  if subj = [] then none
  else
    match rest with
    | [] => none
    | c :: r2 =>
      if c = '(' then
        match dropS r2 with
        | [] => none
        | d :: r4 => if d.isDigit ∧ r4 = [')'] ∧ d ∈ secDigits then some (subj, [d]) else none
      else none

/-- Modelled from the claim: the text contains, at some position, an
`s`/`sec`/`section` token followed by optional whitespace and a digit in
1..6 (mandatory-token reading of the claimed pattern). -/
def hasTokenDigit16 : Str → Bool
  | [] => false
  | c :: cs =>
    (match tryAt (c :: cs) with
     | some d => decide (d ∈ secDigits)
     | none => false) || hasTokenDigit16 cs

/-- Modelled from the claim: same, but with the token itself optional, as the
claim's "optional ... token" literally reads. -/
def specOptMatch16 : Str → Bool
  | [] => false
  | c :: cs =>
    (match (tryAt (c :: cs)).orElse (fun _ => skipWsDigit (c :: cs)) with
     | some d => decide (d ∈ secDigits)
     | none => false) || specOptMatch16 cs

/-- Keys `(week, weekday)` of the day rows of a grid, tracking the current
week marker exactly as the parse loop does. -/
def blockDayKeys : Option Str → Grid → List (Str × Str)
  | _, [] => []
  | cw, r :: rs =>
    match classifyRow cw r with
    | .week k => blockDayKeys (some k) rs
    | .dayRow w day _ => (w, day) :: blockDayKeys cw rs
    | .skip => blockDayKeys cw rs

/-- Exclusivity of every day entry reachable in a timetable. -/
def ExclTT (tt : Timetable) : Prop :=
  ∀ wk dm day dd, lookupA wk tt = some dm → lookupA day dm = some dd →
    dd.special = none ∨ dd.sections = []

/-! ### Concrete grids for the examples -/

/-- The spec's example grid: a week-marker row for the week starting
2026-02-16, then a Monday row with slot cells `MATH(1)`, blank,
`PHY(2)/CHEM(1)`, blank. -/
def gridC1 : Grid :=
  [[("WEEK -6").data, [], [], [], [], [], [], [], [], []],
   [[], [], ("Monday").data, ("MATH(1)").data, [], ("PHY(2)/CHEM(1)").data, [], [], [], []]]

/-- A grid whose week block holds two rows for the same Monday: a special
row, then a regular row. -/
def gridC9 : Grid :=
  [[("WEEK -6").data, [], [], [], [], [], [], [], [], []],
   [[], [], ("Monday").data, ("HOLI").data, [], [], [], [], [], []],
   [[], [], ("Monday").data, ("MATH(1)").data, [], [], [], [], [], []]]

/-- The Monday entry parsed from `gridC9`. -/
def ddC9 : DayData :=
  (lookupA (("Monday").data)
    ((lookupA (("WEEK -6").data) (parseGrid gridC9)).getD [])).getD emptyDayData

/-- The Monday entry parsed from `gridC1`, written out. -/
def ddC1 : DayData :=
  ⟨none, [((("1").data), [(1, [("MATH").data]), (3, [("CHEM").data])]),
          ((("2").data), [(3, [("PHY").data])])]⟩

/-- The week map parsed from `gridC1`, written out. -/
def dmC1 : DayMap := [((("Monday").data), ddC1)]

/-- A timetable whose Monday of week -6 is special. -/
def ttC3 : Timetable :=
  [((("WEEK -6").data), [((("Monday").data), (⟨some (("HOLI").data), []⟩ : DayData))])]

/-- The three section tokens of the `parse_section` regex, lowercase. -/
def secTokens : List Str := [("s").data, ("sec").data, ("section").data]

/-- Contribution of a single entry to section `s`: the subject when the entry
matches with that section, nothing otherwise. -/
def entryFor (s : Str) (e : Str) : Option Str :=
  match entryMatch e with
  | some (subj, sec) => if sec ∈ validSecStrs then (if sec = s then some subj else none) else none
  | none => none

/-! ### Helper lemmas -/

theorem lookupA_setA_self {κ α : Type} [DecidableEq κ] (k : κ) (v : α) (l : List (κ × α)) :
    lookupA k (setA k v l) = some v := by
  induction l with
  | nil => simp [setA, lookupA]
  | cons p rest ih =>
    rcases p with ⟨k', v'⟩
    by_cases h : k' = k <;> simp [setA, lookupA, h, ih]

theorem lookupA_setA_ne {κ α : Type} [DecidableEq κ] {k k' : κ} (v : α) (l : List (κ × α))
    (h : k' ≠ k) : lookupA k (setA k' v l) = lookupA k l := by
  induction l with
  | nil => simp [setA, lookupA, h]
  | cons p rest ih =>
    rcases p with ⟨k'', v''⟩
    by_cases h2 : k'' = k'
    · subst h2
      have hk : k'' ≠ k := h
      simp [setA, lookupA, hk]
    · by_cases h3 : k'' = k
      · subst h3
        simp [setA, lookupA, h2]
      · simp [setA, lookupA, h2, h3, ih]

theorem first_date_eq : FIRST_DATE = 46 := by decide

theorem last_date_eq : LAST_DATE = 87 := by decide

theorem week_dates_eq :
    WEEK_START_DATES = [(-6, 46), (-7, 53), (-8, 60), (-9, 67), (-10, 74), (-11, 81)] := by
  decide

theorem resolve_lt_first {tt : Timetable} {d : Int} {sec : Str} (h : d < FIRST_DATE) :
    resolve tt d sec = .tooEarly := by
  unfold resolve
  rw [if_pos h]

theorem resolve_gt_last {tt : Timetable} {d : Int} {sec : Str} (h1 : ¬ d < FIRST_DATE)
    (h2 : LAST_DATE < d) : resolve tt d sec = .tooLate := by
  unfold resolve
  rw [if_neg h1, if_pos h2]

theorem resolve_in_range_not_oor {tt : Timetable} {d : Int} {sec : Str}
    (h1 : ¬ d < FIRST_DATE) (h2 : ¬ LAST_DATE < d) : ¬ isOOR (resolve tt d sec) := by
  unfold resolve
  rw [if_neg h1, if_neg h2]
  rcases hg : get_week_key_for_date d with _ | wk <;> simp only [hg]
  · simp [isOOR]
  · rcases hk : lookupA wk tt with _ | dm <;> simp only [hk]
    · simp [isOOR]
    · rcases hs : ((lookupA (weekdayName d) dm).getD emptyDayData).special with _ | lbl <;>
        simp [isOOR, hs]

/-! ### Claim theorems -/

/-- C1: on the spec's example grid (week-marker row for the week starting
2026-02-16, Monday row with slot cells `MATH(1)`, blank, `PHY(2)/CHEM(1)`,
blank), the query for 2026-02-16 and section "1" yields a RegularDay whose
slot 1 holds exactly MATH, slots 2 and 4 are empty (rendered "Free"), and
slot 3 holds exactly CHEM — PHY, tagged for section 2, does not appear. -/
theorem C1_example_resolution :
    resolve (parseGrid gridC1) (mkDate 2026 2 16) (("1").data) =
      .regularDay (("1").data) (("Room-101").data)
        [((("10:30 – 12:00 hrs").data), [("MATH").data]),
         ((("12:15 – 13:45 hrs").data), ([] : List Str)),
         ((("14:45 – 16:15 hrs").data), [("CHEM").data]),
         ((("16:30 – 18:00 hrs").data), ([] : List Str))] := by
  decide

/-- C5: the resolver rejects exactly the dates outside
`[FIRST_DATE, LAST_DATE]` (for every timetable, i.e. before any week
lookup): 2026-02-16 and 2026-03-29 (the first/last calendar days of the
earliest/latest configured weeks, which equal `FIRST_DATE`/`LAST_DATE`) are
never OutOfRange, while 2026-02-15 is rejected too-early and 2026-03-30
too-late. -/
theorem C5_boundary_rejection :
    ∀ (tt : Timetable) (sec : Str),
      (∀ d : Int, isOOR (resolve tt d sec) ↔ (d < FIRST_DATE ∨ LAST_DATE < d)) ∧
      resolve tt (mkDate 2026 2 15) sec = .tooEarly ∧
      resolve tt (mkDate 2026 3 30) sec = .tooLate ∧
      ¬ isOOR (resolve tt (mkDate 2026 2 16) sec) ∧
      ¬ isOOR (resolve tt (mkDate 2026 3 29) sec) ∧
      FIRST_DATE = mkDate 2026 2 16 ∧ LAST_DATE = mkDate 2026 3 29 := by
  intro tt sec
  have hiff : ∀ d : Int, isOOR (resolve tt d sec) ↔ (d < FIRST_DATE ∨ LAST_DATE < d) := by
    intro d
    by_cases h1 : d < FIRST_DATE
    · rw [resolve_lt_first h1]
      exact iff_of_true (Or.inl rfl) (Or.inl h1)
    · by_cases h2 : LAST_DATE < d
      · rw [resolve_gt_last h1 h2]
        exact iff_of_true (Or.inr rfl) (Or.inr h2)
      · exact iff_of_false (resolve_in_range_not_oor h1 h2) (not_or.mpr ⟨h1, h2⟩)
  exact ⟨hiff, resolve_lt_first (by decide), resolve_gt_last (by decide) (by decide),
    resolve_in_range_not_oor (by decide) (by decide),
    resolve_in_range_not_oor (by decide) (by decide), by decide, by decide⟩

/-- C6: every configured week covers exactly its 7-day span — for each entry
`(w, s)` of `WEEK_START_DATES` and every date in `[s, s+6]`,
`get_week_key_for_date` returns that entry's key; a date covered by no entry
yields `none`; and no date lies in the spans of two distinct entries. -/
theorem C6_week_lookup :
    (∀ (w s : Int), (w, s) ∈ WEEK_START_DATES → ∀ d : Int, s ≤ d → d ≤ s + 6 →
        get_week_key_for_date d = some (weekKeyStr w)) ∧
    (∀ d : Int, (∀ (w s : Int), (w, s) ∈ WEEK_START_DATES → ¬ (s ≤ d ∧ d ≤ s + 6)) →
        get_week_key_for_date d = none) ∧
    (∀ (w s w' s' : Int), (w, s) ∈ WEEK_START_DATES → (w', s') ∈ WEEK_START_DATES →
        (w, s) ≠ (w', s') → ∀ d : Int, ¬ (s ≤ d ∧ d ≤ s + 6 ∧ s' ≤ d ∧ d ≤ s' + 6)) := by
  refine ⟨?_, ?_, ?_⟩
  · intro w s hmem d h1 h2
    rw [week_dates_eq] at hmem
    unfold get_week_key_for_date
    rw [week_dates_eq]
    simp only [List.mem_cons, List.not_mem_nil, or_false, Prod.mk.injEq] at hmem
    rcases hmem with ⟨rfl, rfl⟩ | ⟨rfl, rfl⟩ | ⟨rfl, rfl⟩ | ⟨rfl, rfl⟩ | ⟨rfl, rfl⟩ | ⟨rfl, rfl⟩ <;>
      (simp only [weekLookup]; split_ifs <;> first | rfl | omega)
  · intro d h
    have h1 := h (-6) 46 (by rw [week_dates_eq]; decide)
    have h2 := h (-7) 53 (by rw [week_dates_eq]; decide)
    have h3 := h (-8) 60 (by rw [week_dates_eq]; decide)
    have h4 := h (-9) 67 (by rw [week_dates_eq]; decide)
    have h5 := h (-10) 74 (by rw [week_dates_eq]; decide)
    have h6 := h (-11) 81 (by rw [week_dates_eq]; decide)
    unfold get_week_key_for_date
    rw [week_dates_eq]
    simp only [weekLookup]
    split_ifs <;> first | rfl | omega
  · intro w s w' s' hm hm' hne d
    rw [week_dates_eq] at hm hm'
    simp only [List.mem_cons, List.not_mem_nil, or_false, Prod.mk.injEq] at hm hm'
    rcases hm with ⟨rfl, rfl⟩ | ⟨rfl, rfl⟩ | ⟨rfl, rfl⟩ | ⟨rfl, rfl⟩ | ⟨rfl, rfl⟩ | ⟨rfl, rfl⟩ <;>
      rcases hm' with ⟨rfl, rfl⟩ | ⟨rfl, rfl⟩ | ⟨rfl, rfl⟩ | ⟨rfl, rfl⟩ | ⟨rfl, rfl⟩ | ⟨rfl, rfl⟩ <;>
      first | (exact absurd rfl hne) | (intro hc; omega)

/-- C6 witness: the theorem instantiated on 2026-02-18 (inside week -6) and
on a date past every configured span. -/
theorem C6_week_lookup_witness :
    get_week_key_for_date 48 = some (weekKeyStr (-6)) ∧ get_week_key_for_date 100 = none := by
  constructor
  · exact C6_week_lookup.1 (-6) 46 (by decide) 48 (by decide) (by decide)
  · refine C6_week_lookup.2.1 100 ?_
    intro w s hm
    rw [week_dates_eq] at hm
    simp only [List.mem_cons, List.not_mem_nil, or_false, Prod.mk.injEq] at hm
    rcases hm with ⟨rfl, rfl⟩ | ⟨rfl, rfl⟩ | ⟨rfl, rfl⟩ | ⟨rfl, rfl⟩ | ⟨rfl, rfl⟩ | ⟨rfl, rfl⟩ <;>
      omega

/-- C8: when the grid source cannot be read, the loader returns the empty
timetable, and every in-range query then resolves to NoData (never to a
schedule or an out-of-range rejection; totality of `resolve` models absence
of a crash). -/
theorem C8_load_failure_degrades :
    load_timetable none = ([] : Timetable) ∧
    ∀ (d : Int) (sec : Str), FIRST_DATE ≤ d → d ≤ LAST_DATE →
      resolve (load_timetable none) d sec = .noData := by
  refine ⟨rfl, ?_⟩
  intro d sec h1 h2
  unfold load_timetable resolve
  rw [if_neg (Int.not_lt.mpr h1), if_neg (Int.not_lt.mpr h2)]
  rcases hg : get_week_key_for_date d with _ | wk <;> simp only [hg] <;> rfl

/-- C8 witness: the first in-range day of an unreadable grid resolves to
NoData. -/
theorem C8_load_failure_witness :
    resolve (load_timetable none) 46 (("1").data) = .noData :=
  C8_load_failure_degrades.2 46 (("1").data) (by decide) (by decide)

/-- C9 counterexample: on a grid whose week block has two Monday rows (a
special `HOLI` row followed by a regular `MATH(1)` row), the parsed Monday
entry carries BOTH the special marker and per-section slot data, refuting
exclusivity for grids with repeated weekday rows. -/
theorem C9_counterexample :
    ddC9.special = some (("HOLI").data) ∧
    ddC9.sections = [((("1").data), [(1, [("MATH").data])])] := by
  decide

/-- C7 counterexample: the claimed "succeeds exactly when the text matches
the pattern with a digit in 1..6" fails — `"s0 s1"` contains such a match
(`s1`) yet resolution fails, because the leftmost match captures `0`; and
under the claim's literal "optional token" reading, `"3"` matches with digit
3 yet resolution fails. -/
theorem C7_counterexample :
    hasTokenDigit16 (("s0 s1").data) = true ∧ parse_section (("s0 s1").data) = none ∧
    specOptMatch16 (("3").data) = true ∧ parse_section (("3").data) = none := by
  decide

/-- C10 counterexample: `"s0s1"` contains the token `s` followed by the
digit 1 ∈ {1..6}, yet section resolution fails (the leftmost match captures
`0`), refuting the claim's universal statement. -/
theorem C10_counterexample :
    hasTokenDigit16 (("s0s1").data) = true ∧ parse_section (("s0s1").data) = none := by
  decide

theorem findSome?_exists {α β : Type} (f : α → Option β) :
    ∀ (l : List α) (b : β), l.findSome? f = some b → ∃ a ∈ l, f a = some b := by
  intro l
  induction l with
  | nil => intro b h; simp [List.findSome?] at h
  | cons a as ih =>
    intro b h
    rcases hf : f a with _ | b'
    · simp only [List.findSome?, hf] at h
      obtain ⟨x, hx, hfx⟩ := ih b h
      exact ⟨x, List.mem_cons_of_mem a hx, hfx⟩
    · simp only [List.findSome?, hf, Option.some.injEq] at h
      exact ⟨a, List.mem_cons_self a as, by rw [hf, h]⟩

/-- C3: on an in-range date whose week and weekday resolve to a day entry
carrying a special marker, the resolver answers SpecialDay with that label
for every section, and never a RegularDay. -/
theorem C3_special_day_exclusive :
    ∀ (tt : Timetable) (d : Int) (sec wk : Str) (dm : DayMap) (dd : DayData) (lbl : Str),
      FIRST_DATE ≤ d → d ≤ LAST_DATE →
      get_week_key_for_date d = some wk → lookupA wk tt = some dm →
      lookupA (weekdayName d) dm = some dd → dd.special = some lbl →
      resolve tt d sec = .specialDay lbl ∧
      ∀ (s v : Str) (sl : List (Str × List Str)), resolve tt d sec ≠ .regularDay s v sl := by
  intro tt d sec wk dm dd lbl h1 h2 hwk hdm hdd hsp
  have hres : resolve tt d sec = .specialDay lbl := by
    unfold resolve
    rw [if_neg (Int.not_lt.mpr h1), if_neg (Int.not_lt.mpr h2)]
    simp only [hwk, hdm, hdd, Option.getD_some, hsp]
  refine ⟨hres, ?_⟩
  intro s v sl hcon
  rw [hres] at hcon
  exact ScheduleResult.noConfusion hcon

/-- C3 witness: a timetable whose Monday of week -6 is HOLI resolves
2026-02-16 for section 1 to that SpecialDay. -/
theorem C3_special_day_witness :
    resolve ttC3 46 (("1").data) = .specialDay (("HOLI").data) :=
  (C3_special_day_exclusive ttC3 46 (("1").data) (("WEEK -6").data)
    [((("Monday").data), (⟨some (("HOLI").data), []⟩ : DayData))]
    (⟨some (("HOLI").data), []⟩ : DayData) (("HOLI").data)
    (by decide) (by decide) (by decide) (by decide) (by decide) rfl).1

/-- C4: whenever the weekday-name fallback resolves a date (the keyword and
ISO strategies having failed), the result is `now` plus
`(target_weekday - now_weekday) mod 7`, with an offset of 0 bumped to a full
week — so it is strictly in the future, at most 7 days ahead, and falls on
the named weekday; in particular a Wednesday query for "wednesday" resolves
to `now + 7`. -/
theorem C4_weekday_rollover :
    (∀ (text : Str) (now d : Int),
        parse_date_input text now = none → weekdayFallback text now = some d →
        ∃ name off, (name, off) ∈ day_map ∧ containsSeq name (lowerStr text) = true ∧
          d = now + (if (off - pyWeekday now) % 7 = 0 then 7
                     else (off - pyWeekday now) % 7) ∧
          now < d ∧ d ≤ now + 7 ∧ pyWeekday d = off) ∧
    (∀ now : Int, pyWeekday now = 2 →
        weekdayFallback (("wednesday s3").data) now = some (now + 7)) := by
  constructor
  · intro text now d _ hwf
    obtain ⟨p, hp, hfp⟩ := findSome?_exists _ day_map d hwf
    rcases p with ⟨name, off⟩
    have hfacts : ∀ p ∈ day_map,
        p.1 ∉ [(("today").data), (("tomorrow").data)] ∧ 0 ≤ p.2 ∧ p.2 ≤ 6 := by decide
    have hname := (hfacts (name, off) hp).1
    have hoffb := (hfacts (name, off) hp).2
    split_ifs at hfp with hc
    · simp only [Option.some.injEq] at hfp
      subst hfp
      simp only [hname, not_false_iff, and_true] at *
      refine ⟨name, off, hp, hc, rfl, ?_, ?_, ?_⟩
      · by_cases hk : (off - pyWeekday now) % 7 = 0 <;> simp [hk] <;> omega
      · by_cases hk : (off - pyWeekday now) % 7 = 0 <;> simp [hk] <;> omega
      · unfold pyWeekday at *
        by_cases hk : (off - (now + 3) % 7) % 7 = 0 <;> simp [hk] <;> omega
  · intro now h
    have m1 : containsSeq (("monday").data) (lowerStr (("wednesday s3").data)) = false := by decide
    have m2 : containsSeq (("mon").data) (lowerStr (("wednesday s3").data)) = false := by decide
    have m3 : containsSeq (("tuesday").data) (lowerStr (("wednesday s3").data)) = false := by decide
    have m4 : containsSeq (("tue").data) (lowerStr (("wednesday s3").data)) = false := by decide
    have m5 : containsSeq (("wednesday").data) (lowerStr (("wednesday s3").data)) = true := by decide
    have m6 : ((2 : Int) - 2) % 7 = 0 := by decide
    have m7 : (("wednesday").data) ∉ [(("today").data), (("tomorrow").data)] := by decide
    have m8 : (0 : Int) % 7 = 0 := by decide
    unfold weekdayFallback day_map
    simp [List.findSome?, m1, m2, m3, m4, m5, m6, m7, m8, h]

/-- C4 witness: 2026-02-25 (day 55) is a Wednesday; the text
"wednesday s3" (keyword and ISO strategies failing on it) resolves to day
62 = now + 7. -/
theorem C4_weekday_rollover_witness :
    (∃ name off, (name, off) ∈ day_map ∧
        containsSeq name (lowerStr (("wednesday s3").data)) = true ∧
        (62 : Int) = 55 + (if (off - pyWeekday 55) % 7 = 0 then 7
                           else (off - pyWeekday 55) % 7) ∧
        (55 : Int) < 62 ∧ (62 : Int) ≤ 55 + 7 ∧ pyWeekday 62 = off) ∧
    weekdayFallback (("wednesday s3").data) 55 = some 62 := by
  constructor
  · exact C4_weekday_rollover.1 (("wednesday s3").data) 55 62 (by decide) (by decide)
  · have h62 : (55 : Int) + 7 = 62 := by norm_num
    have := C4_weekday_rollover.2 55 (by decide)
    rw [h62] at this
    exact this

theorem applyEntry_slot (i : Nat) (secs : List (Str × List (Nat × List Str))) (e s : Str) :
    lookupSlot (applyEntry i secs e) s i = lookupSlot secs s i ++ (entryFor s e).toList := by
  unfold applyEntry entryFor
  rcases hm : entryMatch e with _ | ⟨subj, sec⟩
  · simp
  · by_cases hv : sec ∈ validSecStrs
    · by_cases hs : sec = s
      · subst hs
        simp [hv, lookupSlot, lookupA_setA_self]
      · simp [hv, hs, lookupSlot, lookupA_setA_ne _ _ hs]
    · simp [hv]

theorem applyEntry_other (i j : Nat) (hj : j ≠ i) (secs : List (Str × List (Nat × List Str)))
    (e s : Str) : lookupSlot (applyEntry i secs e) s j = lookupSlot secs s j := by
  unfold applyEntry
  rcases hm : entryMatch e with _ | ⟨subj, sec⟩
  · rfl
  · by_cases hv : sec ∈ validSecStrs
    · by_cases hs : sec = s
      · subst hs
        simp [hv, lookupSlot, lookupA_setA_self, lookupA_setA_ne _ _ (Ne.symm hj)]
      · simp [lookupSlot, hv, hs, lookupA_setA_ne _ _ hs]
    · simp [hv]

theorem foldl_applyEntry_slot (s : Str) (i : Nat) :
    ∀ (l : List Str) (secs : List (Str × List (Nat × List Str))),
      lookupSlot (l.foldl (applyEntry i) secs) s i
        = lookupSlot secs s i ++ l.filterMap (entryFor s) := by
  intro l
  induction l with
  | nil => intro secs; simp
  | cons e rest ih =>
    intro secs
    rw [List.foldl_cons, ih, applyEntry_slot, List.filterMap_cons]
    rcases hf : entryFor s e with _ | subj <;> simp [hf, List.append_assoc]

theorem foldl_applyEntry_other (s : Str) (i j : Nat) (hj : j ≠ i) :
    ∀ (l : List Str) (secs : List (Str × List (Nat × List Str))),
      lookupSlot (l.foldl (applyEntry i) secs) s j = lookupSlot secs s j := by
  intro l
  induction l with
  | nil => intro secs; rfl
  | cons e rest ih =>
    intro secs
    rw [List.foldl_cons, ih, applyEntry_other i j hj]

theorem contribsFor_eq (cell s : Str) :
    contribsFor cell s = (splitEntries cell).filterMap (entryFor s) := by
  unfold contribsFor cellContribs
  rw [List.filterMap_filterMap]
  congr 1
  funext e
  unfold entryFor
  rcases hm : entryMatch e with _ | ⟨subj, sec⟩
  · simp
  · by_cases hs : sec = s
    · subst hs
      by_cases hv : sec ∈ validSecStrs <;> simp [hv]
    · by_cases hv : sec ∈ validSecStrs <;> simp [hv, hs]

theorem all_ws_of_strip_nil {cs : Str} (h : strip cs = []) : ∀ c ∈ cs, isWsChar c := by
  unfold strip at h
  have h1 : (cs.dropWhile isWsChar).reverse.dropWhile isWsChar = [] := by
    have := congrArg List.reverse h
    simpa using this
  rw [List.dropWhile_eq_nil_iff] at h1
  have h3 : ∀ c ∈ cs.dropWhile isWsChar, isWsChar c := fun c hc =>
    h1 c (List.mem_reverse.mpr hc)
  intro c hc
  rw [← List.takeWhile_append_dropWhile (p := isWsChar) (l := cs)] at hc
  rcases List.mem_append.mp hc with h4 | h4
  · exact List.mem_takeWhile_imp h4
  · exact h3 c h4

theorem splitOnSlash_no_slash {cs : Str} (h : ∀ c ∈ cs, c ≠ '/') : splitOnSlash cs = [cs] := by
  induction cs with
  | nil => rfl
  | cons c rest ih =>
    have hc : c ≠ '/' := h c (List.mem_cons_self c rest)
    have ih' := ih (fun x hx => h x (List.mem_cons_of_mem c hx))
    simp [splitOnSlash, hc, ih']

theorem contribsFor_of_strip_nil {cell : Str} (h : strip cell = []) (s : Str) :
    contribsFor cell s = [] := by
  have hws := all_ws_of_strip_nil h
  have hns : ∀ c ∈ cell, c ≠ '/' := by
    intro c hc hslash
    have := hws c hc
    rw [hslash] at this
    exact absurd this (by decide)
  rw [contribsFor_eq]
  unfold splitEntries
  rw [splitOnSlash_no_slash hns]
  simp [h]

theorem singleton_mem_valid (d : Char) : [d] ∈ validSecStrs ↔ d ∈ secDigits := by
  simp [validSecStrs, secDigits]

theorem cons_cons_not_valid (x y : Char) (l : Str) : (x :: y :: l) ∉ validSecStrs := by
  intro h
  simp [validSecStrs] at h

theorem digitsAccept_core (subj t : Str) :
    (match (if t.takeWhile Char.isDigit ≠ [] ∧ t.dropWhile Char.isDigit = [')']
            then some (subj, t.takeWhile Char.isDigit) else (none : Option (Str × Str))) with
     | some (su, sec) => if sec ∈ validSecStrs then some (su, sec) else none
     | none => none)
    = (match t with
       | [] => none
       | d :: r4 => if d.isDigit ∧ r4 = [')'] ∧ d ∈ secDigits then some (subj, [d]) else none) := by
  rcases t with _ | ⟨d, r4⟩
  · simp
  · by_cases hd : d.isDigit = true
    · rw [List.takeWhile_cons_of_pos hd, List.dropWhile_cons_of_pos hd]
      rcases h4 : r4.takeWhile Char.isDigit with _ | ⟨d2, tw2⟩
      · have hdw : r4.dropWhile Char.isDigit = r4 := by
          conv_rhs => rw [← List.takeWhile_append_dropWhile (p := Char.isDigit) (l := r4)]
          rw [h4]
          simp
        by_cases hr4 : r4 = [')']
        · subst hr4
          simp [h4, hdw, hd, singleton_mem_valid]
        · simp [h4, hdw, hd, hr4]
      · have hne : r4 ≠ [')'] := by
          intro hh
          rw [hh] at h4
          simp at h4
        by_cases hdw : r4.dropWhile Char.isDigit = [')']
        · simp [hdw, cons_cons_not_valid, hd, hne]
        · simp [hdw, hd, hne]
    · rw [List.takeWhile_cons_of_neg hd, List.dropWhile_cons_of_neg hd]
      simp [hd]

theorem entryAccept_eq_spec (e : Str) : entryAccept e = specEntryAccept e := by
  unfold entryAccept specEntryAccept entryMatch
  by_cases h0 : e.takeWhile Char.isUpper = []
  · simp [h0]
  · rcases hr : e.dropWhile Char.isUpper with _ | ⟨c, r2⟩
    · simp [h0]
    · by_cases hc : c = '('
      · subst hc
        simpa [h0] using digitsAccept_core (e.takeWhile Char.isUpper) (dropS r2)
      · simp [h0, hc]

/-- C2: processing a slot cell appends, to each section's list for that slot
index, exactly the subjects of the cell's `/`-separated entries that match
the entry pattern with that section's digit, in encounter order — earlier
content is preserved (accumulation, not overwriting), other slots are
untouched, and an entry is accepted exactly when it matches the spec's
pattern of LETTERS and a parenthesized optional-`S`-single-digit designator
with digit in 1..6 (blank and non-matching entries drop silently; the
functions are total, so nothing aborts). -/
theorem C2_slot_cell_parsing :
    (∀ (secs : List (Str × List (Nat × List Str))) (i : Nat) (cell s : Str),
        lookupSlot (applyCell secs i cell) s i = lookupSlot secs s i ++ contribsFor cell s) ∧
    (∀ (secs : List (Str × List (Nat × List Str))) (i : Nat) (cell s : Str) (j : Nat), j ≠ i →
        lookupSlot (applyCell secs i cell) s j = lookupSlot secs s j) ∧
    (∀ e : Str, entryAccept e = specEntryAccept e) := by
  refine ⟨?_, ?_, entryAccept_eq_spec⟩
  · intro secs i cell s
    unfold applyCell
    by_cases hb : strip cell = []
    · rw [if_pos hb, contribsFor_of_strip_nil hb]
      simp
    · rw [if_neg hb, foldl_applyEntry_slot, contribsFor_eq]
  · intro secs i cell s j hj
    unfold applyCell
    by_cases hb : strip cell = []
    · rw [if_pos hb]
    · rw [if_neg hb, foldl_applyEntry_other s i j hj]

/-- C2 witness: the theorem instantiated on the cell `PHY(2)/CHEM(1)` at
slot 3 for section 1, and on the entry `MATH(12)`. -/
theorem C2_slot_cell_parsing_witness :
    lookupSlot (applyCell [] 3 (("PHY(2)/CHEM(1)").data)) (("1").data) 3
        = lookupSlot [] (("1").data) 3 ++ contribsFor (("PHY(2)/CHEM(1)").data) (("1").data) ∧
    lookupSlot (applyCell [] 3 (("PHY(2)/CHEM(1)").data)) (("1").data) 1
        = lookupSlot [] (("1").data) 1 ∧
    entryAccept (("MATH(12)").data) = specEntryAccept (("MATH(12)").data) :=
  ⟨C2_slot_cell_parsing.1 [] 3 _ _, C2_slot_cell_parsing.2.1 [] 3 _ _ 1 (by decide),
   C2_slot_cell_parsing.2.2 _⟩

theorem ciPrefixRest_decomp :
    ∀ (tok s r : Str), ciPrefixRest tok s = some r → ∃ u, s = u ++ r ∧ lowerStr u = tok := by
  intro tok
  induction tok with
  | nil =>
    intro s r h
    simp only [ciPrefixRest, Option.some.injEq] at h
    exact ⟨[], by simp [h], rfl⟩
  | cons p ps ih =>
    intro s r h
    cases s with
    | nil => simp [ciPrefixRest] at h
    | cons c cs =>
      simp only [ciPrefixRest] at h
      by_cases hc : Char.toLower c = p
      · rw [if_pos hc] at h
        obtain ⟨u, hu, hl⟩ := ih cs r h
        refine ⟨c :: u, by rw [hu]; rfl, ?_⟩
        simp only [lowerStr, List.map_cons] at hl ⊢
        rw [hc, hl]
      · rw [if_neg hc] at h
        exact absurd h (by simp)

theorem skipWsDigit_decomp :
    ∀ (s : Str) (c : Char), skipWsDigit s = some c →
      ∃ ws rest, s = ws ++ c :: rest ∧ (∀ x ∈ ws, isWsChar x) ∧ c.isDigit = true := by
  intro s
  induction s with
  | nil => intro c h; simp [skipWsDigit] at h
  | cons a as ih =>
    intro c h
    simp only [skipWsDigit] at h
    by_cases hd : a.isDigit = true
    · rw [if_pos hd] at h
      have ha : a = c := by injection h
      subst ha
      exact ⟨[], as, rfl, by simp, hd⟩
    · rw [if_neg hd] at h
      by_cases hw : isWsChar a = true
      · rw [if_pos hw] at h
        obtain ⟨ws, rest, hs, hws, hc⟩ := ih c h
        refine ⟨a :: ws, rest, by rw [hs]; rfl, ?_, hc⟩
        intro x hx
        rcases List.mem_cons.mp hx with rfl | hx'
        · exact hw
        · exact hws x hx'
      · rw [if_neg hw] at h
        exact absurd h (by simp)

theorem tryTok_decomp (tok s : Str) (c : Char) (h : tryTok tok s = some c) :
    ∃ u ws rest, s = u ++ (ws ++ c :: rest) ∧ lowerStr u = tok ∧
      (∀ x ∈ ws, isWsChar x) ∧ c.isDigit = true := by
  unfold tryTok at h
  rcases h1 : ciPrefixRest tok s with _ | r
  · rw [h1] at h
    simp at h
  · rw [h1] at h
    simp only [Option.some_bind] at h
    obtain ⟨u, hu, hl⟩ := ciPrefixRest_decomp tok s r h1
    obtain ⟨ws, rest, hr, hws, hc⟩ := skipWsDigit_decomp r c h
    exact ⟨u, ws, rest, by rw [hu, hr], hl, hws, hc⟩

theorem tryAt_decomp (s : Str) (c : Char) (h : tryAt s = some c) :
    ∃ tok ws rest, s = tok ++ (ws ++ c :: rest) ∧ lowerStr tok ∈ secTokens ∧
      (∀ x ∈ ws, isWsChar x) ∧ c.isDigit = true := by
  unfold tryAt at h
  rcases h1 : tryTok (("s").data) s with _ | c1
  · rw [h1] at h
    simp only [Option.orElse] at h
    rcases h2 : tryTok (("sec").data) s with _ | c2
    · rw [h2] at h
      simp only [Option.orElse] at h
      obtain ⟨u, ws, rest, hs, hl, hws, hc⟩ := tryTok_decomp _ _ _ h
      exact ⟨u, ws, rest, hs, by rw [hl]; simp [secTokens], hws, hc⟩
    · rw [h2] at h
      simp only [Option.orElse, Option.some.injEq] at h
      subst h
      obtain ⟨u, ws, rest, hs, hl, hws, hc⟩ := tryTok_decomp _ _ _ h2
      exact ⟨u, ws, rest, hs, by rw [hl]; simp [secTokens], hws, hc⟩
  · rw [h1] at h
    simp only [Option.orElse, Option.some.injEq] at h
    subst h
    obtain ⟨u, ws, rest, hs, hl, hws, hc⟩ := tryTok_decomp _ _ _ h1
    exact ⟨u, ws, rest, hs, by rw [hl]; simp [secTokens], hws, hc⟩

theorem searchSec_decomp :
    ∀ (t : Str) (c : Char), searchSec t = some c →
      ∃ pre tok ws post, t = pre ++ (tok ++ (ws ++ c :: post)) ∧ lowerStr tok ∈ secTokens ∧
        (∀ x ∈ ws, isWsChar x) ∧ c.isDigit = true := by
  intro t
  induction t with
  | nil => intro c h; simp [searchSec] at h
  | cons a as ih =>
    intro c h
    rcases ht : tryAt (a :: as) with _ | d
    · simp only [searchSec, ht] at h
      obtain ⟨pre, tok, ws, post, hp, htok, hws, hc⟩ := ih c h
      exact ⟨a :: pre, tok, ws, post, by rw [hp]; rfl, htok, hws, hc⟩
    · simp only [searchSec, ht, Option.some.injEq] at h
      subst h
      obtain ⟨tok, ws, rest, hs, htok, hws, hc⟩ := tryAt_decomp (a :: as) _ ht
      exact ⟨[], tok, ws, rest, by rw [← hs]; rfl, htok, hws, hc⟩

theorem tryAt_head_s (x : Char) (u : Str) (c : Char) (h : tryAt (x :: u) = some c) :
    Char.toLower x = 's' := by
  by_contra hx
  have e1 : ("s").data = ['s'] := rfl
  have e2 : ("sec").data = ['s', 'e', 'c'] := rfl
  have e3 : ("section").data = ['s', 'e', 'c', 't', 'i', 'o', 'n'] := rfl
  unfold tryAt tryTok at h
  rw [e1, e2, e3] at h
  simp [ciPrefixRest, hx, Option.orElse] at h

theorem not_digit_of_ws {x : Char} (h : isWsChar x = true) : x.isDigit = false := by
  unfold isWsChar at h
  simp only [Bool.or_eq_true, decide_eq_true_eq] at h
  rcases h with ((((h | h) | h) | h) | h) | h <;> subst h <;> rfl

theorem skipWsDigit_ws : ∀ (ws : Str) (c : Char) (post : Str), (∀ x ∈ ws, isWsChar x) →
    c.isDigit = true → skipWsDigit (ws ++ c :: post) = some c := by
  intro ws
  induction ws with
  | nil => intro c post _ hc; simp [skipWsDigit, hc]
  | cons w ws' ih =>
    intro c post hws hc
    have hw := hws w (List.mem_cons_self _ _)
    have hd := not_digit_of_ws hw
    rw [List.cons_append]
    simp only [skipWsDigit, hd, hw]
    simp only [Bool.false_eq_true, if_false, if_true]
    exact ih c post (fun x hx => hws x (List.mem_cons_of_mem _ hx)) hc

theorem searchSec_no_s : ∀ (pre : Str), (∀ x ∈ pre, Char.toLower x ≠ 's') →
    ∀ (rest : Str), searchSec (pre ++ rest) = searchSec rest := by
  intro pre
  induction pre with
  | nil => intro _ rest; rfl
  | cons p pre' ih =>
    intro h rest
    rw [List.cons_append]
    have hp : Char.toLower p ≠ 's' := h p (List.mem_cons_self _ _)
    have ht : tryAt (p :: (pre' ++ rest)) = none := by
      rcases htt : tryAt (p :: (pre' ++ rest)) with _ | c
      · rfl
      · exact absurd (tryAt_head_s _ _ _ htt) hp
    simp only [searchSec, ht]
    exact ih (fun x hx => h x (List.mem_cons_of_mem _ hx)) rest

theorem searchSec_at_tok : ∀ tok ∈ secTokens, ∀ (ws post : Str) (c : Char),
    (∀ x ∈ ws, isWsChar x) → c.isDigit = true →
    searchSec (tok ++ (ws ++ c :: post)) = some c := by
  intro tok htok ws post c hws hc
  have hsw := skipWsDigit_ws ws c post hws hc
  have e1 : ("s").data = ['s'] := rfl
  have e2 : ("sec").data = ['s', 'e', 'c'] := rfl
  have e3 : ("section").data = ['s', 'e', 'c', 't', 'i', 'o', 'n'] := rfl
  simp only [secTokens, List.mem_cons, List.not_mem_nil, or_false] at htok
  have f1 : isWsChar 'e' = false := by decide
  have f2 : isWsChar 'c' = false := by decide
  have f3 : isWsChar 't' = false := by decide
  have f4 : isWsChar 'i' = false := by decide
  have f5 : isWsChar 'o' = false := by decide
  have f6 : isWsChar 'n' = false := by decide
  rcases htok with rfl | rfl | rfl
  · simp [searchSec, tryAt, tryTok, e1, e2, e3, ciPrefixRest, hsw]
  · simp [searchSec, tryAt, tryTok, e1, e2, e3, ciPrefixRest, skipWsDigit, hsw,
      f1, f2, f3, f4, f5, f6, Option.orElse]
  · simp [searchSec, tryAt, tryTok, e1, e2, e3, ciPrefixRest, skipWsDigit, hsw,
      f1, f2, f3, f4, f5, f6, Option.orElse]

/-- C7 (amended): section resolution is governed by the LEFTMOST match of a
mandatory `s`/`sec`/`section` token followed by optional whitespace and a
digit — every successful scan decomposes the text that way, resolution
succeeds iff the leftmost match's digit is in 1..6 (so `x`, `s0`, `s7` fail
and `today s3` succeeds), and on failure interpretation yields the
missing-section clarification and never a Query. -/
theorem C7_section_resolution :
    (∀ (t : Str) (c : Char), searchSec t = some c →
        ∃ pre tok ws post, t = pre ++ (tok ++ (ws ++ c :: post)) ∧ lowerStr tok ∈ secTokens ∧
          (∀ x ∈ ws, isWsChar x) ∧ c.isDigit = true) ∧
    (∀ (t : Str) (c : Char), searchSec t = some c → c ∈ secDigits → parse_section t = some c) ∧
    (∀ (t : Str) (c : Char), searchSec t = some c → c ∉ secDigits → parse_section t = none) ∧
    (∀ t : Str, searchSec t = none → parse_section t = none) ∧
    (∀ (t : Str) (now d0 : Int), resolveDate (strip t) now = some d0 →
        parse_section (strip t) = none → interpret t now = .needSection) ∧
    (∀ (t : Str) (now d : Int) (sec : Str), parse_section (strip t) = none →
        interpret t now ≠ .query d sec) ∧
    parse_section (("x").data) = none ∧ parse_section (("s0").data) = none ∧
    parse_section (("s7").data) = none ∧ parse_section (("today s3").data) = some '3' := by
  refine ⟨searchSec_decomp, ?_, ?_, ?_, ?_, ?_, by decide, by decide, by decide, by decide⟩
  · intro t c h hc
    unfold parse_section
    simp [h, hc]
  · intro t c h hc
    unfold parse_section
    simp [h, hc]
  · intro t h
    unfold parse_section
    simp [h]
  · intro t now d0 hd hs
    unfold interpret
    simp only [hd, hs]
  · intro t now d sec hs hcon
    unfold interpret at hcon
    rcases hr : resolveDate (strip t) now with _ | d0
    · simp only [hr] at hcon
      exact Interp.noConfusion hcon
    · simp only [hr, hs] at hcon
      exact Interp.noConfusion hcon

/-- C7 witness: the decomposition instantiated on "today s3", and the
missing-section outcome on "today s7" (whose date resolves). -/
theorem C7_section_resolution_witness :
    (∃ pre tok ws post, (("today s3").data) = pre ++ (tok ++ (ws ++ '3' :: post)) ∧
        lowerStr tok ∈ secTokens ∧ (∀ x ∈ ws, isWsChar x) ∧ ('3').isDigit = true) ∧
    interpret (("today s7").data) 0 = .needSection := by
  constructor
  · exact C7_section_resolution.1 (("today s3").data) '3' (by decide)
  · exact C7_section_resolution.2.2.2.2.1 (("today s7").data) 0 0 (by decide) (by decide)

/-- C10 (amended): when the text before the first token occurrence contains
no `s`/`S` (so the match is leftmost) and the token is followed by optional
whitespace and a digit d in 1..6, section resolution returns d and ignores
everything after that first digit (the suffix `post` is arbitrary); in
particular `s12` resolves to section 1. -/
theorem C10_first_match_semantics :
    (∀ (pre tok ws post : Str) (c : Char),
        (∀ x ∈ pre, Char.toLower x ≠ 's') → tok ∈ secTokens →
        (∀ x ∈ ws, isWsChar x) → c ∈ secDigits →
        parse_section (pre ++ (tok ++ (ws ++ c :: post))) = some c) ∧
    parse_section (("s12").data) = some '1' := by
  refine ⟨?_, by decide⟩
  intro pre tok ws post c hpre htok hws hc
  have hdig : ∀ x ∈ secDigits, Char.isDigit x = true := by decide
  have hcd := hdig c hc
  unfold parse_section
  rw [searchSec_no_s pre hpre, searchSec_at_tok tok htok ws post c hws hcd]
  simp [hc]

/-- C10 witness: the theorem instantiated with empty prefix, token `s`, no
whitespace, digit 2 and the discarded suffix "99". -/
theorem C10_first_match_witness :
    parse_section ([] ++ ((("s").data) ++ ([] ++ '2' :: (("99").data)))) = some '2' :=
  C10_first_match_semantics.1 [] (("s").data) [] (("99").data) '2'
    (by decide) (by decide) (by decide) (by decide)

theorem dayDD_excl (tt : Timetable) (w day : Str) (slots : List Str)
    (h : lookupA day ((lookupA w tt).getD []) = none) :
    (dayDD tt w day slots).special = none ∨ (dayDD tt w day slots).sections = [] := by
  unfold dayDD
  rw [h]
  rcases hsp : findSpecial slots with _ | lbl
  · left
    simp [hsp, emptyDayData]
  · right
    simp [hsp, emptyDayData]

theorem parse_fold_excl :
    ∀ (rows : Grid) (st : PState),
      (∀ wk dm day dd, lookupA wk st.tt = some dm → lookupA day dm = some dd →
          dd.special = none ∨ dd.sections = []) →
      (∀ wk day, (wk, day) ∈ blockDayKeys st.cw rows →
          ∀ dm, lookupA wk st.tt = some dm → lookupA day dm = none) →
      (blockDayKeys st.cw rows).Nodup →
      ∀ wk dm day dd, lookupA wk (rows.foldl parseRow st).tt = some dm →
          lookupA day dm = some dd → dd.special = none ∨ dd.sections = [] := by
  intro rows
  induction rows with
  | nil => intro st hex _ _; exact hex
  | cons r rs ih =>
    intro st hex hup hnd
    rw [List.foldl_cons]
    rcases hcl : classifyRow st.cw r with k | ⟨w, day, slots⟩ | _
    · have hst : parseRow st r = ⟨setA k [] st.tt, some k⟩ := by
        unfold parseRow
        rw [hcl]
      have hbk : blockDayKeys st.cw (r :: rs) = blockDayKeys (some k) rs := by
        simp only [blockDayKeys, hcl]
      rw [hst]
      rw [hbk] at hnd hup
      apply ih ⟨setA k [] st.tt, some k⟩
      · intro wk dm day dd h1 h2
        by_cases hw : wk = k
        · subst hw
          rw [lookupA_setA_self] at h1
          injection h1 with h1
          subst h1
          simp [lookupA] at h2
        · rw [lookupA_setA_ne _ _ (Ne.symm hw)] at h1
          exact hex wk dm day dd h1 h2
      · intro wk day hmem dm h1
        by_cases hw : wk = k
        · subst hw
          rw [lookupA_setA_self] at h1
          injection h1 with h1
          subst h1
          simp [lookupA]
        · rw [lookupA_setA_ne _ _ (Ne.symm hw)] at h1
          exact hup wk day hmem dm h1
      · exact hnd
    · have hst : parseRow st r = ⟨applyDayRow st.tt w day slots, st.cw⟩ := by
        unfold parseRow
        rw [hcl]
      have hbk : blockDayKeys st.cw (r :: rs) = (w, day) :: blockDayKeys st.cw rs := by
        simp only [blockDayKeys, hcl]
      rw [hst]
      rw [hbk] at hnd hup
      obtain ⟨hnotin, hnd2⟩ := List.nodup_cons.mp hnd
      have hfresh : lookupA day ((lookupA w st.tt).getD []) = none := by
        rcases hl : lookupA w st.tt with _ | dmw
        · simp [lookupA]
        · simp only [Option.getD_some]
          exact hup w day (List.mem_cons_self _ _) dmw hl
      apply ih ⟨applyDayRow st.tt w day slots, st.cw⟩
      · intro wk dm day' dd h1 h2
        unfold applyDayRow at h1
        by_cases hw : wk = w
        · subst hw
          rw [lookupA_setA_self] at h1
          injection h1 with h1
          subst h1
          by_cases hd : day' = day
          · subst hd
            rw [lookupA_setA_self] at h2
            injection h2 with h2
            subst h2
            exact dayDD_excl st.tt _ _ slots hfresh
          · rw [lookupA_setA_ne _ _ (Ne.symm hd)] at h2
            rcases hl : lookupA wk st.tt with _ | dmw
            · rw [hl] at h2
              simp [lookupA] at h2
            · rw [hl] at h2
              simp only [Option.getD_some] at h2
              exact hex wk dmw day' dd hl h2
        · rw [lookupA_setA_ne _ _ (Ne.symm hw)] at h1
          exact hex wk dm day' dd h1 h2
      · intro wk day' hmem dm h1
        unfold applyDayRow at h1
        have hne : (wk, day') ≠ (w, day) := fun hh => hnotin (hh ▸ hmem)
        by_cases hw : wk = w
        · subst hw
          rw [lookupA_setA_self] at h1
          injection h1 with h1
          subst h1
          have hdne : day' ≠ day := by
            intro hh
            exact hne (by rw [hh])
          rw [lookupA_setA_ne _ _ (Ne.symm hdne)]
          rcases hl : lookupA wk st.tt with _ | dmw
          · simp [lookupA]
          · simp only [Option.getD_some]
            exact hup wk day' (List.mem_cons_of_mem _ hmem) dmw hl
        · rw [lookupA_setA_ne _ _ (Ne.symm hw)] at h1
          exact hup wk day' (List.mem_cons_of_mem _ hmem) dm h1
      · exact hnd2
    · have hst : parseRow st r = st := by
        unfold parseRow
        rw [hcl]
      have hbk : blockDayKeys st.cw (r :: rs) = blockDayKeys st.cw rs := by
        simp only [blockDayKeys, hcl]
      rw [hst]
      rw [hbk] at hnd hup
      exact ih st hex hup hnd

/-- C9 (amended): for every grid in which no (week, weekday) pair is carried
by two day rows — each weekday has at most one row per week block — every
day entry of the parsed timetable is exclusively special or regular.  (The
counterexample shows the restriction is necessary: with two rows for the
same weekday the entries merge.) -/
theorem C9_exclusivity :
    ∀ (g : Grid), (blockDayKeys none g).Nodup →
      ∀ wk dm day dd, lookupA wk (parseGrid g) = some dm → lookupA day dm = some dd →
        dd.special = none ∨ dd.sections = [] := by
  intro g hnd
  unfold parseGrid
  refine parse_fold_excl g ⟨[], none⟩ ?_ ?_ hnd
  · intro wk dm day dd h _
    simp [lookupA] at h
  · intro wk day _ dm h
    simp [lookupA] at h

/-- C9 witness: the single-Monday example grid satisfies the no-repeat
condition, and its Monday entry is exclusively regular. -/
theorem C9_exclusivity_witness :
    ddC1.special = none ∨ ddC1.sections = [] :=
  C9_exclusivity gridC1 (by decide) (("WEEK -6").data) dmC1 (("Monday").data) ddC1
    (by decide) (by decide)
